import Mathlib

/-!
Verification of the `soh_math` numeric core (vectors, matrices, complex
numbers, quaternions, color conversion) against its specification.

The Rust code is generic over a scalar type `T` bounded by numeric traits
(`num_traits::Num`, `num_traits::Float`).  Ring/field operations are embedded
through Lean's `CommRing`/`Field` classes ("exact scalar arithmetic"); the
transcendental operations supplied by the `Float` trait (`cos`, `sin`,
`sqrt`, `exp`, `ln`, `acos`, `atan2`, `epsilon`) are embedded as explicit
operation records, mirroring the trait-method dictionary of the source.
Storage is column-major: flat index `col*N+row`, so field `mI` below is the
source's `self.0[I]`.
-/

namespace Soh

/-- `Vec3<T>` from `src/soh_math/src/vec/vec3.rs` (fields generated by the
`impl_vec` attribute macro). -/
structure Vec3 (K : Type) where
  x : K
  y : K
  z : K
deriving DecidableEq, Repr

/-- `Vec4<T>` from `src/soh_math/src/vec/vec4.rs`. -/
structure Vec4 (K : Type) where
  x : K
  y : K
  z : K
  w : K
deriving DecidableEq, Repr

/-- `Mat2<T>(pub [T; 4])`, column major; `mI` is `self.0[I]`. -/
structure Mat2 (K : Type) where
  m0 : K
  m1 : K
  m2 : K
  m3 : K
deriving DecidableEq, Repr

/-- `Mat3<T>(pub [T; 9])`, column major; `mI` is `self.0[I]`. -/
structure Mat3 (K : Type) where
  m0 : K
  m1 : K
  m2 : K
  m3 : K
  m4 : K
  m5 : K
  m6 : K
  m7 : K
  m8 : K
deriving DecidableEq, Repr

/-- `Mat4<T>(pub [T; 16])`, column major; `mI` is `self.0[I]`. -/
structure Mat4 (K : Type) where
  m0 : K
  m1 : K
  m2 : K
  m3 : K
  m4 : K
  m5 : K
  m6 : K
  m7 : K
  m8 : K
  m9 : K
  m10 : K
  m11 : K
  m12 : K
  m13 : K
  m14 : K
  m15 : K
deriving DecidableEq, Repr

attribute [ext] Vec3 Vec4 Mat2 Mat3 Mat4

variable {K : Type}

/-- `Mat2::identity` (`T::ONE`/`T::ZERO` are the ring's 1/0). -/
def Mat2.identity [CommRing K] : Mat2 K := ⟨1, 0, 0, 1⟩

/-- `Mat2::det`: `self.0[0] * self.0[3] - self.0[1] * self.0[2]`. -/
def Mat2.det [CommRing K] (M : Mat2 K) : K := M.m0 * M.m3 - M.m1 * M.m2

/-- `impl Mul for Mat2` (matrix times matrix, column major). -/
def Mat2.mul [CommRing K] (M R : Mat2 K) : Mat2 K :=
  ⟨M.m0 * R.m0 + M.m2 * R.m1,
   M.m1 * R.m0 + M.m3 * R.m1,
   M.m0 * R.m2 + M.m2 * R.m3,
   M.m1 * R.m2 + M.m3 * R.m3⟩

/-- `impl Div<T> for Mat2` (componentwise division by a scalar). -/
def Mat2.divs [Field K] (M : Mat2 K) (s : K) : Mat2 K :=
  ⟨M.m0 / s, M.m1 / s, M.m2 / s, M.m3 / s⟩

/-- `Mat2::invert_no_det`: `[m3, -m1, -m2, m0]` (adjugate). -/
def Mat2.invert_no_det [CommRing K] (M : Mat2 K) : Mat2 K :=
  ⟨M.m3, -M.m1, -M.m2, M.m0⟩

/-- `Mat2::invert`: `invert_no_det() / det()`. -/
def Mat2.invert [Field K] (M : Mat2 K) : Mat2 K :=
  (M.invert_no_det).divs M.det

/-- `Mat3::identity`. -/
def Mat3.identity [CommRing K] : Mat3 K := ⟨1, 0, 0, 0, 1, 0, 0, 0, 1⟩

/-- `Mat3::det` (first-row cofactor expansion as written in the source). -/
def Mat3.det [CommRing K] (M : Mat3 K) : K :=
  M.m0 * (M.m4 * M.m8 - M.m7 * M.m5)
    + M.m3 * (M.m7 * M.m2 - M.m1 * M.m8)
    + M.m6 * (M.m1 * M.m5 - M.m4 * M.m2)

/-- `impl Mul for Mat3` (matrix times matrix, column major). -/
def Mat3.mul [CommRing K] (M R : Mat3 K) : Mat3 K :=
  ⟨M.m0 * R.m0 + M.m3 * R.m1 + M.m6 * R.m2,
   M.m1 * R.m0 + M.m4 * R.m1 + M.m7 * R.m2,
   M.m2 * R.m0 + M.m5 * R.m1 + M.m8 * R.m2,
   M.m0 * R.m3 + M.m3 * R.m4 + M.m6 * R.m5,
   M.m1 * R.m3 + M.m4 * R.m4 + M.m7 * R.m5,
   M.m2 * R.m3 + M.m5 * R.m4 + M.m8 * R.m5,
   M.m0 * R.m6 + M.m3 * R.m7 + M.m6 * R.m8,
   M.m1 * R.m6 + M.m4 * R.m7 + M.m7 * R.m8,
   M.m2 * R.m6 + M.m5 * R.m7 + M.m8 * R.m8⟩

/-- `impl Div<T> for Mat3`. -/
def Mat3.divs [Field K] (M : Mat3 K) (s : K) : Mat3 K :=
  ⟨M.m0 / s, M.m1 / s, M.m2 / s, M.m3 / s, M.m4 / s, M.m5 / s,
   M.m6 / s, M.m7 / s, M.m8 / s⟩

/-- `Mat3::invert_no_det` (cofactor matrix transposed, as written). -/
def Mat3.invert_no_det [CommRing K] (M : Mat3 K) : Mat3 K :=
  ⟨M.m4 * M.m8 - M.m7 * M.m5,
   M.m7 * M.m2 - M.m1 * M.m8,
   M.m1 * M.m5 - M.m4 * M.m2,
   M.m6 * M.m5 - M.m3 * M.m8,
   M.m0 * M.m8 - M.m6 * M.m2,
   M.m3 * M.m2 - M.m0 * M.m5,
   M.m3 * M.m7 - M.m6 * M.m4,
   M.m6 * M.m1 - M.m0 * M.m7,
   M.m0 * M.m4 - M.m3 * M.m1⟩

/-- `Mat3::invert`: the determinant is recomputed inside from the first
column of the adjugate, exactly as in the source. -/
def Mat3.invert [Field K] (M : Mat3 K) : Mat3 K :=
  let inv := M.invert_no_det
  let det := M.m0 * inv.m0 + M.m3 * inv.m1 + M.m6 * inv.m2
  inv.divs det

/-- `Mat4::identity`. -/
def Mat4.identity [CommRing K] : Mat4 K :=
  ⟨1, 0, 0, 0, 0, 1, 0, 0, 0, 0, 1, 0, 0, 0, 0, 1⟩

/-- `Mat4::from_rows` (column-major flat array laid out from the four row
vectors, exactly as in the source). -/
def Mat4.from_rows (rows : Fin 4 → Vec4 K) : Mat4 K :=
  ⟨(rows 0).x, (rows 1).x, (rows 2).x, (rows 3).x,
   (rows 0).y, (rows 1).y, (rows 2).y, (rows 3).y,
   (rows 0).z, (rows 1).z, (rows 2).z, (rows 3).z,
   (rows 0).w, (rows 1).w, (rows 2).w, (rows 3).w⟩

/-- `Mat4::det` (Laplace expansion along the first column, with the exact
cofactor groupings of the source). -/
def Mat4.det [CommRing K] (M : Mat4 K) : K :=
  M.m0 * (M.m5 * (M.m10 * M.m15 - M.m14 * M.m11)
        + M.m9 * (M.m14 * M.m7 - M.m6 * M.m15)
        + M.m13 * (M.m6 * M.m11 - M.m10 * M.m7))
    + M.m4 * (M.m1 * (M.m14 * M.m11 - M.m10 * M.m15)
        + M.m9 * (M.m2 * M.m15 - M.m14 * M.m3)
        + M.m13 * (M.m10 * M.m3 - M.m2 * M.m11))
    + M.m8 * (M.m1 * (M.m6 * M.m15 - M.m14 * M.m7)
        + M.m5 * (M.m14 * M.m3 - M.m2 * M.m15)
        + M.m13 * (M.m2 * M.m7 - M.m6 * M.m3))
    + M.m12 * (M.m1 * (M.m10 * M.m7 - M.m6 * M.m11)
        + M.m5 * (M.m2 * M.m11 - M.m10 * M.m3)
        + M.m9 * (M.m6 * M.m3 - M.m2 * M.m7))

/-- `impl Mul for Mat4` (matrix times matrix, column major). -/
def Mat4.mul [CommRing K] (M R : Mat4 K) : Mat4 K :=
  ⟨M.m0 * R.m0 + M.m4 * R.m1 + M.m8 * R.m2 + M.m12 * R.m3,
   M.m1 * R.m0 + M.m5 * R.m1 + M.m9 * R.m2 + M.m13 * R.m3,
   M.m2 * R.m0 + M.m6 * R.m1 + M.m10 * R.m2 + M.m14 * R.m3,
   M.m3 * R.m0 + M.m7 * R.m1 + M.m11 * R.m2 + M.m15 * R.m3,
   M.m0 * R.m4 + M.m4 * R.m5 + M.m8 * R.m6 + M.m12 * R.m7,
   M.m1 * R.m4 + M.m5 * R.m5 + M.m9 * R.m6 + M.m13 * R.m7,
   M.m2 * R.m4 + M.m6 * R.m5 + M.m10 * R.m6 + M.m14 * R.m7,
   M.m3 * R.m4 + M.m7 * R.m5 + M.m11 * R.m6 + M.m15 * R.m7,
   M.m0 * R.m8 + M.m4 * R.m9 + M.m8 * R.m10 + M.m12 * R.m11,
   M.m1 * R.m8 + M.m5 * R.m9 + M.m9 * R.m10 + M.m13 * R.m11,
   M.m2 * R.m8 + M.m6 * R.m9 + M.m10 * R.m10 + M.m14 * R.m11,
   M.m3 * R.m8 + M.m7 * R.m9 + M.m11 * R.m10 + M.m15 * R.m11,
   M.m0 * R.m12 + M.m4 * R.m13 + M.m8 * R.m14 + M.m12 * R.m15,
   M.m1 * R.m12 + M.m5 * R.m13 + M.m9 * R.m14 + M.m13 * R.m15,
   M.m2 * R.m12 + M.m6 * R.m13 + M.m10 * R.m14 + M.m14 * R.m15,
   M.m3 * R.m12 + M.m7 * R.m13 + M.m11 * R.m14 + M.m15 * R.m15⟩

/-- `impl Div<T> for Mat4`. -/
def Mat4.divs [Field K] (M : Mat4 K) (s : K) : Mat4 K :=
  ⟨M.m0 / s, M.m1 / s, M.m2 / s, M.m3 / s, M.m4 / s, M.m5 / s, M.m6 / s,
   M.m7 / s, M.m8 / s, M.m9 / s, M.m10 / s, M.m11 / s, M.m12 / s, M.m13 / s,
   M.m14 / s, M.m15 / s⟩

/-- `Mat4::invert_no_det` (the sixteen cofactor expressions, transcribed
term for term from the source). -/
def Mat4.invert_no_det [CommRing K] (M : Mat4 K) : Mat4 K :=
  ⟨M.m5 * (M.m10 * M.m15 - M.m14 * M.m11)
     + M.m9 * (M.m14 * M.m7 - M.m6 * M.m15)
     + M.m13 * (M.m6 * M.m11 - M.m10 * M.m7),
   M.m1 * (M.m14 * M.m11 - M.m10 * M.m15)
     + M.m9 * (M.m2 * M.m15 - M.m14 * M.m3)
     + M.m13 * (M.m10 * M.m3 - M.m2 * M.m11),
   M.m1 * (M.m6 * M.m15 - M.m14 * M.m7)
     + M.m5 * (M.m14 * M.m3 - M.m2 * M.m15)
     + M.m13 * (M.m2 * M.m7 - M.m6 * M.m3),
   M.m1 * (M.m10 * M.m7 - M.m6 * M.m11)
     + M.m5 * (M.m2 * M.m11 - M.m10 * M.m3)
     + M.m9 * (M.m6 * M.m3 - M.m2 * M.m7),
   M.m4 * (M.m14 * M.m11 - M.m10 * M.m15)
     + M.m8 * (M.m6 * M.m15 - M.m14 * M.m7)
     + M.m12 * (M.m10 * M.m7 - M.m6 * M.m11),
   M.m0 * (M.m10 * M.m15 - M.m14 * M.m11)
     + M.m8 * (M.m14 * M.m3 - M.m2 * M.m15)
     + M.m12 * (M.m2 * M.m11 - M.m10 * M.m3),
   M.m0 * (M.m14 * M.m7 - M.m6 * M.m15)
     + M.m4 * (M.m2 * M.m15 - M.m14 * M.m3)
     + M.m12 * (M.m6 * M.m3 - M.m2 * M.m7),
   M.m0 * (M.m6 * M.m11 - M.m10 * M.m7)
     + M.m4 * (M.m10 * M.m3 - M.m2 * M.m11)
     + M.m8 * (M.m2 * M.m7 - M.m6 * M.m3),
   M.m4 * (M.m9 * M.m15 - M.m13 * M.m11)
     + M.m8 * (M.m13 * M.m7 - M.m5 * M.m15)
     + M.m12 * (M.m5 * M.m11 - M.m9 * M.m7),
   M.m0 * (M.m13 * M.m11 - M.m9 * M.m15)
     + M.m8 * (M.m1 * M.m15 - M.m13 * M.m3)
     + M.m12 * (M.m9 * M.m3 - M.m1 * M.m11),
   M.m0 * (M.m5 * M.m15 - M.m13 * M.m7)
     + M.m4 * (M.m13 * M.m3 - M.m1 * M.m15)
     + M.m12 * (M.m1 * M.m7 - M.m5 * M.m3),
   M.m0 * (M.m9 * M.m7 - M.m5 * M.m11)
     + M.m4 * (M.m1 * M.m11 - M.m9 * M.m3)
     + M.m8 * (M.m5 * M.m3 - M.m1 * M.m7),
   M.m4 * (M.m13 * M.m10 - M.m9 * M.m14)
     + M.m8 * (M.m5 * M.m14 - M.m13 * M.m6)
     + M.m12 * (M.m9 * M.m6 - M.m5 * M.m10),
   M.m0 * (M.m9 * M.m14 - M.m13 * M.m10)
     + M.m8 * (M.m13 * M.m2 - M.m1 * M.m14)
     + M.m12 * (M.m1 * M.m10 - M.m9 * M.m2),
   M.m0 * (M.m13 * M.m6 - M.m5 * M.m14)
     + M.m4 * (M.m1 * M.m14 - M.m13 * M.m2)
     + M.m12 * (M.m5 * M.m2 - M.m1 * M.m6),
   M.m0 * (M.m5 * M.m10 - M.m9 * M.m6)
     + M.m4 * (M.m9 * M.m2 - M.m1 * M.m10)
     + M.m8 * (M.m1 * M.m6 - M.m5 * M.m2)⟩

/-- `Mat4::invert`: the determinant is recomputed inside from the first
column of the adjugate, exactly as in the source. -/
def Mat4.invert [Field K] (M : Mat4 K) : Mat4 K :=
  let inv := M.invert_no_det
  let det := M.m0 * inv.m0 + M.m4 * inv.m1 + M.m8 * inv.m2 + M.m12 * inv.m3
  inv.divs det

/-! ### Mat3 rotation constructors

The Rust functions are generic over `T: num_traits::Float`; the `cos`/`sin`
trait methods are embedded as an explicit record of operations. -/

/-- The trigonometric methods of the `num_traits::Float` trait used by the
`Mat3` rotation constructors. -/
structure TrigOps (K : Type) where
  cos : K → K
  sin : K → K

/-- `Mat3::yaw` (rotation around the z-axis), column-major flat layout. -/
def Mat3.yaw [CommRing K] (F : TrigOps K) (phi : K) : Mat3 K :=
  let phi_cos := F.cos phi
  let phi_sin := F.sin phi
  ⟨phi_cos, phi_sin, 0,
   -phi_sin, phi_cos, 0,
   0, 0, 1⟩

/-- `Mat3::pitch` (rotation around the y-axis). -/
def Mat3.pitch [CommRing K] (F : TrigOps K) (theta : K) : Mat3 K :=
  let theta_cos := F.cos theta
  let theta_sin := F.sin theta
  ⟨theta_cos, 0, -theta_sin,
   0, 1, 0,
   theta_sin, 0, theta_cos⟩

/-- `Mat3::roll` (rotation around the x-axis). -/
def Mat3.roll [CommRing K] (F : TrigOps K) (psi : K) : Mat3 K :=
  let psi_cos := F.cos psi
  let psi_sin := F.sin psi
  ⟨1, 0, 0,
   0, psi_cos, psi_sin,
   0, -psi_sin, psi_cos⟩

/-- `Mat3::yaw_pitch_roll` (closed-form Euler rotation matrix, transcribed
entry for entry from the source). -/
def Mat3.yaw_pitch_roll [CommRing K] (F : TrigOps K) (yaw pitch roll : K) :
    Mat3 K :=
  let yaw_cos := F.cos yaw
  let yaw_sin := F.sin yaw
  let pitch_cos := F.cos pitch
  let pitch_sin := F.sin pitch
  let roll_cos := F.cos roll
  let roll_sin := F.sin roll
  ⟨yaw_cos * pitch_cos,
   yaw_sin * pitch_cos,
   -pitch_sin,
   yaw_cos * pitch_sin * roll_sin - yaw_sin * roll_cos,
   yaw_sin * pitch_sin * roll_sin + yaw_cos * roll_cos,
   pitch_cos * roll_sin,
   yaw_cos * pitch_sin * roll_cos + yaw_sin * roll_sin,
   yaw_sin * pitch_sin * roll_cos - yaw_cos * roll_sin,
   pitch_cos * roll_cos⟩

/-! ### Complex numbers (`src/soh_math/src/imaginary/complex.rs`) -/

/-- `Complex<T> { re, im }`. -/
structure Complex (K : Type) where
  re : K
  im : K
deriving DecidableEq, Repr

attribute [ext] Complex

/-- `Complex::ZERO`. -/
def Complex.zero [CommRing K] : Complex K := ⟨0, 0⟩

/-- `Complex::ONE`. -/
def Complex.one [CommRing K] : Complex K := ⟨1, 0⟩

/-- `impl Mul for Complex`: `(ac - bd) + (bc + ad)i` as written. -/
def Complex.mul [CommRing K] (z r : Complex K) : Complex K :=
  ⟨z.re * r.re - z.im * r.im, z.im * r.re + z.re * r.im⟩

/-- `Complex::len2`. -/
def Complex.len2 [CommRing K] (z : Complex K) : K := z.re * z.re + z.im * z.im

/-- The loop of `Complex::powi` (binary exponentiation): state
`(a, result, k)`; each iteration sets `n = k / 2`, multiplies `result` by
`a` when `2 * n < k`, then squares `a` and halves `k`. -/
def Complex.powiAux [CommRing K] (a result : Complex K) (k : ℕ) : Complex K :=
  if h : k = 0 then result
  else
    Complex.powiAux (a.mul a)
      (if 2 * (k / 2) < k then result.mul a else result) (k / 2)
termination_by k
decreasing_by exact Nat.div_lt_self (Nat.pos_of_ne_zero h) one_lt_two

/-- `Complex::powi`: starts with `result = Complex::one()`, `a = *self`,
`k = pow`. -/
def Complex.powi [CommRing K] (z : Complex K) (pow : ℕ) : Complex K :=
  Complex.powiAux z Complex.one pow

/-- Reference n-fold product from the specification: `c * c * ... * c`
(`n` factors, empty product is `one`). -/
def Complex.powRef [CommRing K] (z : Complex K) : ℕ → Complex K
  | 0 => Complex.one
  | n + 1 => (Complex.powRef z n).mul z

/-- The transcendental methods of `num_traits::Float` used by the complex
power functions. -/
structure CFloatOps (K : Type) where
  cos : K → K
  sin : K → K
  exp : K → K
  ln : K → K
  atan2 : K → K → K

/-- `impl Mul<T> for Complex` (componentwise scalar multiply). -/
def Complex.muls [CommRing K] (z : Complex K) (s : K) : Complex K :=
  ⟨z.re * s, z.im * s⟩

/-- `Complex::from_angle`. -/
def Complex.from_angle [CommRing K] (F : CFloatOps K) (angle : K) : Complex K :=
  ⟨F.cos angle, F.sin angle⟩

/-- `Complex::from_param`: `from_angle(angle) * length`. -/
def Complex.from_param [CommRing K] (F : CFloatOps K) (length angle : K) :
    Complex K :=
  (Complex.from_angle F angle).muls length

/-- `Complex::phi`: `im.atan2(re)`. -/
def Complex.phi [CommRing K] (F : CFloatOps K) (z : Complex K) : K :=
  F.atan2 z.im z.re

/-- `Complex::ln_len`: `len2().ln() * T::ONE_HALF`. -/
def Complex.ln_len [Field K] (F : CFloatOps K) (z : Complex K) : K :=
  F.ln z.len2 * (1 / 2)

/-- `Complex::powf`: zero base returns `pow.into()`; otherwise
`from_param((pow * ln_len).exp(), pow * phi)`. -/
def Complex.powf [Field K] [DecidableEq K] (F : CFloatOps K) (z : Complex K)
    (pow : K) : Complex K :=
  if z = Complex.zero then ⟨pow, 0⟩
  else
    let res_ln_len := pow * Complex.ln_len F z
    Complex.from_param F (F.exp res_ln_len) (pow * Complex.phi F z)

/-- `Complex::powc`: zero base returns `pow`; otherwise
`c = pow * (ln_len + phi i)`, result `from_param(c.re.exp(), c.im)`. -/
def Complex.powc [Field K] [DecidableEq K] (F : CFloatOps K) (z pow : Complex K) :
    Complex K :=
  if z = Complex.zero then pow
  else
    let c := pow.mul ⟨Complex.ln_len F z, Complex.phi F z⟩
    Complex.from_param F (F.exp c.re) c.im

/-! ### Quaternions (`src/soh_math/src/imaginary/quat.rs`)

The source is generic over `T: num_traits::Float + WholeConsts + RealConsts`.
One claim concerns IEEE behavior (NaN production), which no single ordered
field can model, so this module is embedded over an explicit dictionary of
all the scalar operations the trait bound supplies.  It is instantiated
below once with the operations of an arbitrary `Field` (exact arithmetic)
and once with a carrier that tracks non-finite results the way `f64`
division by zero produces them. -/

/-- The scalar-operation dictionary of `T: num_traits::Float + WholeConsts
+ RealConsts` as used by `quat.rs`: ring/field arithmetic, comparison, and
the transcendental methods.  `ltB` is the `<` of `PartialOrd` (on `f64` a
comparison with NaN is `false`). -/
structure FOps (K : Type) where
  add : K → K → K
  sub : K → K → K
  mul : K → K → K
  div : K → K → K
  neg : K → K
  zero : K
  one : K
  one_half : K
  eps : K
  ltB : K → K → Bool
  sqrt : K → K
  exp : K → K
  ln : K → K
  cos : K → K
  sin : K → K
  acos : K → K
  atan2 : K → K → K

variable {Q : Type}

/-- `Vec3::ZERO`. -/
def Vec3.zero (O : FOps Q) : Vec3 Q := ⟨O.zero, O.zero, O.zero⟩

/-- Componentwise vector addition (from the `impl_vec` macro). -/
def Vec3.add (O : FOps Q) (a b : Vec3 Q) : Vec3 Q :=
  ⟨O.add a.x b.x, O.add a.y b.y, O.add a.z b.z⟩

/-- Componentwise vector negation. -/
def Vec3.negv (O : FOps Q) (a : Vec3 Q) : Vec3 Q :=
  ⟨O.neg a.x, O.neg a.y, O.neg a.z⟩

/-- Vector times scalar (`impl Mul<T>` from the `impl_vec` macro). -/
def Vec3.muls (O : FOps Q) (a : Vec3 Q) (s : Q) : Vec3 Q :=
  ⟨O.mul a.x s, O.mul a.y s, O.mul a.z s⟩

/-- Vector divided by scalar (`impl Div<T>` from the `impl_vec` macro). -/
def Vec3.divs (O : FOps Q) (a : Vec3 Q) (s : Q) : Vec3 Q :=
  ⟨O.div a.x s, O.div a.y s, O.div a.z s⟩

/-- `Vec3::dot`: `x1*x2 + y1*y2 + z1*z2`. -/
def Vec3.dot (O : FOps Q) (a b : Vec3 Q) : Q :=
  O.add (O.add (O.mul a.x b.x) (O.mul a.y b.y)) (O.mul a.z b.z)

/-- `Vec3::cross` (right-handed cross product as written). -/
def Vec3.cross (O : FOps Q) (a b : Vec3 Q) : Vec3 Q :=
  ⟨O.sub (O.mul a.y b.z) (O.mul a.z b.y),
   O.sub (O.mul a.z b.x) (O.mul a.x b.z),
   O.sub (O.mul a.x b.y) (O.mul a.y b.x)⟩

/-- `Vec3::len2`: `x*x + y*y + z*z`. -/
def Vec3.len2 (O : FOps Q) (a : Vec3 Q) : Q :=
  O.add (O.add (O.mul a.x a.x) (O.mul a.y a.y)) (O.mul a.z a.z)

/-- `Vec3::len`: `len2().sqrt()` (three components, so not the `hypot`
special case). -/
def Vec3.len (O : FOps Q) (a : Vec3 Q) : Q := O.sqrt (a.len2 O)

/-- `Vec3::normalized`: `*self / self.len()`. -/
def Vec3.normalized (O : FOps Q) (a : Vec3 Q) : Vec3 Q :=
  a.divs O (a.len O)

/-- `Quaternion<T> { scalar, vector }`. -/
structure Quaternion (K : Type) where
  scalar : K
  vector : Vec3 K
deriving DecidableEq, Repr

attribute [ext] Quaternion

/-- `Quaternion::ONE`: scalar `T::ONE`, vector `Vec3::ZERO`. -/
def Quaternion.one (O : FOps Q) : Quaternion Q := ⟨O.one, Vec3.zero O⟩

/-- `Quaternion::len2`: `scalar * scalar + vector.len2()`. -/
def Quaternion.len2 (O : FOps Q) (q : Quaternion Q) : Q :=
  O.add (O.mul q.scalar q.scalar) (q.vector.len2 O)

/-- `Quaternion::len`: `len2().sqrt()`. -/
def Quaternion.len (O : FOps Q) (q : Quaternion Q) : Q := O.sqrt (q.len2 O)

/-- `Quaternion::conjugate`: negate the vector part. -/
def Quaternion.conjugate (O : FOps Q) (q : Quaternion Q) : Quaternion Q :=
  ⟨q.scalar, q.vector.negv O⟩

/-- `impl Mul for Quaternion` (Hamilton product as written). -/
def Quaternion.mul (O : FOps Q) (q r : Quaternion Q) : Quaternion Q :=
  ⟨O.sub (O.mul q.scalar r.scalar) (Vec3.dot O q.vector r.vector),
   Vec3.add O
     (Vec3.add O (q.vector.muls O r.scalar) (r.vector.muls O q.scalar))
     (Vec3.cross O q.vector r.vector)⟩

/-- `impl Div<T> for Quaternion` (componentwise division by a scalar). -/
def Quaternion.divs (O : FOps Q) (q : Quaternion Q) (s : Q) : Quaternion Q :=
  ⟨O.div q.scalar s, q.vector.divs O s⟩

/-- `Quaternion::invert`: `conjugate() / len2()`. -/
def Quaternion.invert (O : FOps Q) (q : Quaternion Q) : Quaternion Q :=
  (q.conjugate O).divs O (q.len2 O)

/-- `Quaternion::from_axis_angle`: `scalar = cos(angle * ONE_HALF)`,
`vector = axis.normalized() * sin(angle * ONE_HALF)`. -/
def Quaternion.from_axis_angle (O : FOps Q) (axis : Vec3 Q) (angle : Q) :
    Quaternion Q :=
  let half_angle := O.mul angle O.one_half
  let c := O.cos half_angle
  let s := O.sin half_angle
  ⟨c, (axis.normalized O).muls O s⟩

/-- `Quaternion::exp`: small-angle branch `len_v < epsilon` returns
`(scalar.exp(), ZERO)`; otherwise
`(exp_s * len_v.cos(), vector * exp_s * len_v.sin() / len_v)`. -/
def Quaternion.exp (O : FOps Q) (q : Quaternion Q) : Quaternion Q :=
  let len_v := q.vector.len O
  let exp_s := O.exp q.scalar
  if O.ltB len_v O.eps then ⟨O.exp q.scalar, Vec3.zero O⟩
  else ⟨O.mul exp_s (O.cos len_v),
        ((q.vector.muls O exp_s).muls O (O.sin len_v)).divs O len_v⟩

/-- `Quaternion::ln`: `(len_q.ln(), vector * (scalar / len_q).acos() / len_v)`
— note: no small-angle branch in the source; the division by `len_v` is
unconditional. -/
def Quaternion.ln (O : FOps Q) (q : Quaternion Q) : Quaternion Q :=
  let len_q := q.len O
  let len_v := q.vector.len O
  let ln_len := O.ln len_q
  ⟨ln_len, (q.vector.muls O (O.acos (O.div q.scalar len_q))).divs O len_v⟩

/-- The `FOps` dictionary of an arbitrary `Field` ("exact scalar
arithmetic"); the transcendental methods are supplied as parameters. -/
def FOps.ofField (K : Type) [Field K] [LinearOrder K]
    (sqrt exp ln cos sin acos : K → K) (atan2 : K → K → K) (eps : K) :
    FOps K where
  add a b := a + b
  sub a b := a - b
  mul a b := a * b
  div a b := a / b
  neg a := -a
  zero := 0
  one := 1
  one_half := 1 / 2
  eps := eps
  ltB a b := decide (a < b)
  sqrt := sqrt
  exp := exp
  ln := ln
  cos := cos
  sin := sin
  acos := acos
  atan2 := atan2

/-! ### An IEEE-style carrier

`FP` models `f64` values that arise in the quaternion claims: `fin q` is a
finite value known exactly (a rational), `nan` stands for any non-finite
result (NaN or ±Inf).  Division by zero yields `nan`, matching IEEE
(`0.0/0.0` is NaN, `x/0.0` is ±Inf); arithmetic on `nan` propagates it;
ordered comparison against `nan` is `false`.  Transcendental operations
return a finite value only where `f64` computes that value exactly
(`sqrt 0 = 0`, `sqrt 1 = 1`, `ln 1 = 0`, `acos 1 = 0`, `exp 0 = 1`, ...);
elsewhere they return `nan`, and no theorem below depends on those
arguments. -/

/-- Exact-or-non-finite scalar: `fin q` is the exact value `q`, `nan` is
any non-finite `f64` result. -/
inductive FP where
  | fin : ℚ → FP
  | nan : FP
deriving DecidableEq, Repr

/-- Rational square root; exact on squares of rationals (in particular on
`0` and `1`, the only arguments reached by the theorems below). -/
def ratSqrt (a : ℚ) : ℚ := (Nat.sqrt a.num.toNat : ℚ) / (Nat.sqrt a.den : ℚ)

/-- The `FOps` dictionary for the IEEE-style carrier. -/
def FP.ops : FOps FP where
  add a b := match a, b with
    | .fin a, .fin b => .fin (a + b)
    | _, _ => .nan
  sub a b := match a, b with
    | .fin a, .fin b => .fin (a - b)
    | _, _ => .nan
  mul a b := match a, b with
    | .fin a, .fin b => .fin (a * b)
    | _, _ => .nan
  div a b := match a, b with
    | .fin a, .fin b => if b = 0 then .nan else .fin (a / b)
    | _, _ => .nan
  neg a := match a with
    | .fin a => .fin (-a)
    | _ => .nan
  zero := .fin 0
  one := .fin 1
  one_half := .fin (1 / 2)
  eps := .fin (1 / 2 ^ 52)
  ltB a b := match a, b with
    | .fin a, .fin b => decide (a < b)
    | _, _ => false
  sqrt a := match a with
    | .fin a => if a < 0 then .nan else .fin (ratSqrt a)
    | _ => .nan
  exp a := match a with
    | .fin a => if a = 0 then .fin 1 else .nan
    | _ => .nan
  ln a := match a with
    | .fin a => if a = 1 then .fin 0 else .nan
    | _ => .nan
  cos a := match a with
    | .fin a => if a = 0 then .fin 1 else .nan
    | _ => .nan
  sin a := match a with
    | .fin a => if a = 0 then .fin 0 else .nan
    | _ => .nan
  acos a := match a with
    | .fin a => if a = 1 then .fin 0 else .nan
    | _ => .nan
  atan2 a b := match a, b with
    | .fin a, .fin b => if a = 0 ∧ 0 < b then .fin 0 else .nan
    | _, _ => .nan

/-! ### Color conversion (`src/soh_math/src/color/convert.rs`)

Rust `&str` values are byte strings and `hex_to_rgb` slices them by byte
(`&hex[1..3]` etc.), so strings are embedded as lists of byte values
(`List ℕ`).  `u8` channel values are embedded as `ℕ` (the parse guarantees
`≤ 255`).  The HSV arithmetic runs on `f64`; it is embedded over exact
rationals (the claims concern branch structure and clamping, not rounding
error), with the saturating `as u8` casts of Rust modelled exactly. -/

/-- `Rgb { r, g, b }` with `u8` channels. -/
structure Rgb where
  r : ℕ
  g : ℕ
  b : ℕ
deriving DecidableEq, Repr

/-- `Hsv { h, s, v }` with `f64` channels, embedded over `ℚ`. -/
structure Hsv where
  h : ℚ
  s : ℚ
  v : ℚ
deriving DecidableEq, Repr

/-- `char::to_digit(16)` on a byte: `0-9`, `a-f`, `A-F`. -/
def hexDigitVal (b : ℕ) : Option ℕ :=
  if 48 ≤ b ∧ b ≤ 57 then some (b - 48)
  else if 97 ≤ b ∧ b ≤ 102 then some (b - 87)
  else if 65 ≤ b ∧ b ≤ 70 then some (b - 55)
  else none

/-- The digit-accumulation loop of `u8::from_str_radix(s, 16)`: left fold
with overflow check against `u8::MAX`. -/
def parseHexU8Digits (ds : List ℕ) : Option ℕ :=
  ds.foldl
    (fun acc b =>
      match acc, hexDigitVal b with
      | some a, some d => if a * 16 + d ≤ 255 then some (a * 16 + d) else none
      | _, _ => none)
    (some 0)

/-- `u8::from_str_radix(s, 16)` on a byte string: optional leading `+`/`-`
(byte 43/45), then at least one hex digit; a negative nonzero value
overflows `u8`. -/
def from_str_radix16_u8 (bs : List ℕ) : Option ℕ :=
  match bs with
  | [] => none
  | b :: ds =>
    if b = 43 then (if ds = [] then none else parseHexU8Digits ds)
    else if b = 45 then
      (if ds = [] then none
       else (parseHexU8Digits ds).bind fun v =>
         if v = 0 then some v else none)
    else parseHexU8Digits (b :: ds)

/-- `hex_to_rgb`: parses `&hex[1..3]`, `&hex[3..5]`, `&hex[5..]` with
`unwrap_or(0)`. -/
def hex_to_rgb (hex : List ℕ) : Rgb :=
  { r := (from_str_radix16_u8 ((hex.drop 1).take 2)).getD 0
    g := (from_str_radix16_u8 ((hex.drop 3).take 2)).getD 0
    b := (from_str_radix16_u8 (hex.drop 5)).getD 0 }

/-- One uppercase hex digit (`X` format). -/
def hexUpperDigit (d : ℕ) : ℕ := if d < 10 then 48 + d else 55 + d

/-- `{:02X}` on a `u8` value: two uppercase hex digits. -/
def byteToHexX2 (n : ℕ) : List ℕ := [hexUpperDigit (n / 16), hexUpperDigit (n % 16)]

/-- `rgb_to_hex`: `format!("#{:02X}{:02X}{:02X}", r, g, b)`. -/
def rgb_to_hex (c : Rgb) : List ℕ :=
  35 :: (byteToHexX2 c.r ++ byteToHexX2 c.g ++ byteToHexX2 c.b)

/-- ASCII uppercasing of one byte (what "the uppercase form" of a hex
string means byte by byte). -/
def asciiToUpper (b : ℕ) : ℕ := if 97 ≤ b ∧ b ≤ 122 then b - 32 else b

/-- A byte that is an ASCII hex digit. -/
def isHexDigitByte (b : ℕ) : Bool :=
  (48 ≤ b && b ≤ 57) || (97 ≤ b && b ≤ 102) || (65 ≤ b && b ≤ 70)

/-- `f64::clamp(lo, hi)`. -/
def clampQ (x lo hi : ℚ) : ℚ := if x < lo then lo else if x > hi then hi else x

/-- Rust `as u8` on a (floored) float value: saturating cast. -/
def castU8 (x : ℚ) : ℕ := if x < 0 then 0 else min 255 (Int.toNat ⌊x⌋)

/-- `f64::round`: round half away from zero. -/
def rustRound (x : ℚ) : ℚ :=
  if x < 0 then -((⌊-x + 1 / 2⌋ : ℤ) : ℚ) else ((⌊x + 1 / 2⌋ : ℤ) : ℚ)

/-- The `match` of `hsv_to_rgb_float` on `(i as u8) % 6`; the wildcard arm
is `unreachable!()`, embedded as `none`. -/
def hsvBranch (i : ℕ) (v t p q : ℚ) : Option (ℚ × ℚ × ℚ) :=
  match i with
  | 0 => some (v, t, p)
  | 1 => some (q, v, p)
  | 2 => some (p, v, t)
  | 3 => some (p, q, v)
  | 4 => some (t, p, v)
  | 5 => some (v, p, q)
  | _ => none

/-- `hsv_to_rgb_float`: clamp `s`,`v` to `[0,1]`, split `h/60` into integer
and fractional parts, select the sector by `(i as u8) % 6`, clamp the
resulting channels to `[0,1]`. -/
def hsv_to_rgb_float (hsv : Hsv) : Option (ℚ × ℚ × ℚ) :=
  let s := clampQ hsv.s 0 1
  let v := clampQ hsv.v 0 1
  let i0 : ℚ := ((⌊hsv.h / 60⌋ : ℤ) : ℚ)
  let f := hsv.h / 60 - i0
  let p := v * (1 - s)
  let q := v * (1 - f * s)
  let t := v * (1 - (1 - f) * s)
  (hsvBranch (castU8 i0 % 6) v t p q).map fun rgb =>
    (clampQ rgb.1 0 1, clampQ rgb.2.1 0 1, clampQ rgb.2.2 0 1)

/-- `hsv_to_rgb`: scale each channel by 255, `round`, cast to `u8`. -/
def hsv_to_rgb (hsv : Hsv) : Option Rgb :=
  (hsv_to_rgb_float hsv).map fun rgb =>
    { r := castU8 (rustRound (rgb.1 * 255))
      g := castU8 (rustRound (rgb.2.1 * 255))
      b := castU8 (rustRound (rgb.2.2 * 255)) }

/-! ## Helper lemmas -/

lemma Complex.mul_one' [CommRing K] (z : Complex K) : z.mul Complex.one = z := by
  ext <;> simp [Complex.mul, Complex.one]

lemma Complex.one_mul' [CommRing K] (z : Complex K) : Complex.one.mul z = z := by
  ext <;> simp [Complex.mul, Complex.one]

lemma Complex.mul_comm' [CommRing K] (z w : Complex K) : z.mul w = w.mul z := by
  ext <;> simp [Complex.mul] <;> ring

lemma Complex.mul_assoc' [CommRing K] (a b c : Complex K) :
    (a.mul b).mul c = a.mul (b.mul c) := by
  ext <;> simp [Complex.mul] <;> ring

lemma Complex.mul_left_comm' [CommRing K] (a b c : Complex K) :
    a.mul (b.mul c) = b.mul (a.mul c) := by
  ext <;> simp [Complex.mul] <;> ring

lemma Complex.powRef_two_mul [CommRing K] (a : Complex K) (m : ℕ) :
    Complex.powRef a (2 * m) = Complex.powRef (a.mul a) m := by
  induction m with
  | zero => rfl
  | succ m ih =>
    have h : 2 * (m + 1) = 2 * m + 1 + 1 := by ring
    rw [h, Complex.powRef, Complex.powRef, ih, Complex.powRef,
      Complex.mul_assoc']

lemma Complex.powiAux_eq [CommRing K] (k : ℕ) (a r : Complex K) :
    Complex.powiAux a r k = r.mul (Complex.powRef a k) := by
  induction k using Nat.strong_induction_on generalizing a r with
  | _ k ih =>
    rw [Complex.powiAux]
    by_cases hk : k = 0
    · subst hk
      simp [Complex.powRef, Complex.mul_one']
    · rw [dif_neg hk, ih (k / 2) (Nat.div_lt_self (Nat.pos_of_ne_zero hk) one_lt_two)]
      have hdm := Nat.div_add_mod k 2
      have hm2 : k % 2 < 2 := Nat.mod_lt _ (by norm_num)
      by_cases hodd : 2 * (k / 2) < k
      · have hk1 : k = 2 * (k / 2) + 1 := by omega
        have hpow : Complex.powRef a k = (Complex.powRef (a.mul a) (k / 2)).mul a := by
          conv_lhs => rw [hk1]
          rw [Complex.powRef, Complex.powRef_two_mul]
        rw [if_pos hodd, hpow, Complex.mul_assoc', Complex.mul_comm' a]
      · have hk2 : k = 2 * (k / 2) := by omega
        have hpow : Complex.powRef a k = Complex.powRef (a.mul a) (k / 2) := by
          conv_lhs => rw [hk2]
          rw [Complex.powRef_two_mul]
        rw [if_neg hodd, hpow]

lemma Mat2.mul_invert_eq2 [Field K] (A : Mat2 K) (hA : A.det ≠ 0) :
    A.mul A.invert = Mat2.identity := by
  rw [Mat2.det] at hA
  ext <;>
    simp only [Mat2.mul, Mat2.invert, Mat2.invert_no_det, Mat2.divs,
      Mat2.det, Mat2.identity] <;>
    field_simp <;> ring

lemma Mat3.mul_invert_eq3 [Field K] (B : Mat3 K) (hB : B.det ≠ 0) :
    B.mul B.invert = Mat3.identity := by
  rw [Mat3.det] at hB
  ext <;>
    simp only [Mat3.mul, Mat3.invert, Mat3.invert_no_det, Mat3.divs,
      Mat3.identity] <;>
    field_simp <;> ring

lemma Mat4.invert_eq [Field K] (C : Mat4 K) :
    C.invert = C.invert_no_det.divs C.det := rfl

lemma Mat4.mul_divs_eq [Field K] (C N : Mat4 K) (s : K) :
    C.mul (N.divs s) = (C.mul N).divs s := by
  ext <;> simp only [Mat4.mul, Mat4.divs] <;> ring

set_option maxHeartbeats 1000000 in
lemma Mat4.mul_adjugate [CommRing K] (C : Mat4 K) :
    C.mul C.invert_no_det =
      ⟨C.det, 0, 0, 0, 0, C.det, 0, 0, 0, 0, C.det, 0, 0, 0, 0, C.det⟩ := by
  ext <;> simp only [Mat4.mul, Mat4.invert_no_det, Mat4.det] <;> ring

lemma Mat4.mul_invert_eq4 [Field K] (C : Mat4 K) (hC : C.det ≠ 0) :
    C.mul C.invert = Mat4.identity := by
  rw [Mat4.invert_eq, Mat4.mul_divs_eq, Mat4.mul_adjugate]
  ext <;> simp [Mat4.divs, Mat4.identity, zero_div, div_self hC]

/-! ## Claims -/

/-- **C1**: over exact scalar arithmetic (any field), every matrix with
nonzero determinant satisfies `M * M.invert() == identity()`, for `Mat2`,
`Mat3` and `Mat4` (where `invert()` is the adjugate `invert_no_det()`
divided by the determinant, as in the source). -/
theorem c1_invert_law (K : Type) [Field K] (A : Mat2 K) (B : Mat3 K)
    (C : Mat4 K) (hA : A.det ≠ 0) (hB : B.det ≠ 0) (hC : C.det ≠ 0) :
    A.mul A.invert = Mat2.identity ∧ B.mul B.invert = Mat3.identity ∧
      C.mul C.invert = Mat4.identity :=
  ⟨A.mul_invert_eq2 hA, B.mul_invert_eq3 hB, C.mul_invert_eq4 hC⟩

/-- Witness for C1: concrete rational matrices with nonzero determinant. -/
theorem c1_invert_law_witness :
    ((⟨1, 0, 1, 2⟩ : Mat2 ℚ).det ≠ 0 ∧
        (⟨2, 0, 0, 0, 1, 0, 1, 0, 1⟩ : Mat3 ℚ).det ≠ 0 ∧
        (⟨1, 0, 0, 0, 0, 1, 0, 0, 0, 0, 1, 0, 0, 0, 0, 2⟩ : Mat4 ℚ).det ≠ 0) ∧
      ((⟨1, 0, 1, 2⟩ : Mat2 ℚ).mul (⟨1, 0, 1, 2⟩ : Mat2 ℚ).invert =
          Mat2.identity ∧
        (⟨2, 0, 0, 0, 1, 0, 1, 0, 1⟩ : Mat3 ℚ).mul
            (⟨2, 0, 0, 0, 1, 0, 1, 0, 1⟩ : Mat3 ℚ).invert = Mat3.identity ∧
        (⟨1, 0, 0, 0, 0, 1, 0, 0, 0, 0, 1, 0, 0, 0, 0, 2⟩ : Mat4 ℚ).mul
            (⟨1, 0, 0, 0, 0, 1, 0, 0, 0, 0, 1, 0, 0, 0, 0, 2⟩ :
              Mat4 ℚ).invert = Mat4.identity) :=
  ⟨⟨by simp [Mat2.det], by simp [Mat3.det], by simp [Mat4.det]⟩,
    c1_invert_law ℚ _ _ _ (by simp [Mat2.det]) (by simp [Mat3.det])
      (by simp [Mat4.det])⟩

/-- **C2**: for every scalar ring and every trigonometric dictionary,
`Mat3::yaw(φ) * Mat3::pitch(θ) * Mat3::roll(ψ)` equals
`Mat3::yaw_pitch_roll(φ, θ, ψ)` exactly (entrywise ring identity; no
trigonometric identities are needed). -/
theorem c2_yaw_pitch_roll_composition (K : Type) [CommRing K] (F : TrigOps K)
    (phi theta psi : K) :
    ((Mat3.yaw F phi).mul (Mat3.pitch F theta)).mul (Mat3.roll F psi) =
      Mat3.yaw_pitch_roll F phi theta psi := by
  ext <;>
    simp [Mat3.yaw, Mat3.pitch, Mat3.roll, Mat3.yaw_pitch_roll, Mat3.mul] <;>
    ring

/-- **C3**: the 4×4 integer matrix with rows `[3,1,4,1]`, `[5,9,2,6]`,
`[5,3,5,8]`, `[9,7,9,3]` has `Mat4::det()` exactly 98. -/
theorem c3_det_98 :
    (Mat4.from_rows
      ![⟨3, 1, 4, 1⟩, ⟨5, 9, 2, 6⟩, ⟨5, 3, 5, 8⟩, ⟨9, 7, 9, 3⟩] :
        Mat4 ℤ).det = 98 := by
  decide

/-- **C4** (counterexample to the claim as stated): `Quaternion::ln` has
no small-angle branch.  On the quaternion with zero vector part and
positive scalar `(1, (0,0,0))` — whose vector length 0 is below
`f64::EPSILON = 2⁻⁵²` — `ln` unconditionally computes
`vector * acos(scalar/len_q) / |vector|`, and the division `0/0` makes
every vector component non-finite (IEEE NaN). -/
theorem c4_ln_nan_counterexample :
    FP.ops.ltB
        ((Vec3.mk (FP.fin 0) (FP.fin 0) (FP.fin 0)).len FP.ops)
        FP.ops.eps = true ∧
      (Quaternion.ln FP.ops
          ⟨FP.fin 1, Vec3.mk (FP.fin 0) (FP.fin 0) (FP.fin 0)⟩).vector =
        Vec3.mk FP.nan FP.nan FP.nan := by
  constructor
  · simp [FP.ops, Vec3.len, Vec3.len2, ratSqrt]
  · norm_num [Quaternion.ln, Quaternion.len, Quaternion.len2, Vec3.len,
      Vec3.len2, Vec3.muls, Vec3.divs, FP.ops, ratSqrt]

/-- **C4** (amended): `Quaternion::exp` does contain the small-angle
branch — whenever `|vector| < epsilon` it returns `(exp(scalar), 0)`
without dividing by the vector length — but `Quaternion::ln` contains no
such branch: it divides by `|vector|` unconditionally, and on the
quaternion `(1, (0,0,0))` (zero vector part, positive scalar) this
produces NaN vector components. -/
theorem c4_small_angle_branch (T : Type) (O : FOps T) (q : Quaternion T)
    (h : O.ltB (q.vector.len O) O.eps = true) :
    Quaternion.exp O q = ⟨O.exp q.scalar, Vec3.zero O⟩ ∧
      (Quaternion.ln FP.ops
          ⟨FP.fin 1, Vec3.mk (FP.fin 0) (FP.fin 0) (FP.fin 0)⟩).vector =
        Vec3.mk FP.nan FP.nan FP.nan := by
  constructor
  · simp [Quaternion.exp, h]
  · norm_num [Quaternion.ln, Quaternion.len, Quaternion.len2, Vec3.len,
      Vec3.len2, Vec3.muls, Vec3.divs, FP.ops, ratSqrt]

/-- Witness for C4 (amended): the zero quaternion over the IEEE-style
carrier satisfies the small-angle condition, and `exp` returns
`(exp 0, 0) = (1, 0)` through the guarded branch. -/
theorem c4_small_angle_branch_witness :
    FP.ops.ltB
        ((Vec3.mk (FP.fin 0) (FP.fin 0) (FP.fin 0)).len FP.ops)
        FP.ops.eps = true ∧
      Quaternion.exp FP.ops
          ⟨FP.fin 0, Vec3.mk (FP.fin 0) (FP.fin 0) (FP.fin 0)⟩ =
        ⟨FP.ops.exp (FP.fin 0), Vec3.zero FP.ops⟩ :=
  ⟨by simp [FP.ops, Vec3.len, Vec3.len2, ratSqrt],
    (c4_small_angle_branch FP FP.ops
        ⟨FP.fin 0, Vec3.mk (FP.fin 0) (FP.fin 0) (FP.fin 0)⟩
        (by simp [FP.ops, Vec3.len, Vec3.len2, ratSqrt])).1⟩

/-- **C5**: `Quaternion::from_axis_angle(axis, angle)` produces a unit
quaternion, `scalar² + |vector|² = 1`, over exact scalar arithmetic, for
every axis and angle at which the supplied `sqrt`/`cos`/`sin` behave as
the real functions do: `sqrt(len2 axis)² = len2 axis` with
`sqrt(len2 axis) ≠ 0` (equivalently, the axis is nonzero), and
`cos²(angle/2) + sin²(angle/2) = 1`. -/
theorem c5_from_axis_angle_unit (K : Type) [Field K] [LinearOrder K]
    (sq ex lg cs sn ac : K → K) (at2 : K → K → K) (eps : K)
    (axis : Vec3 K) (angle : K)
    (hsq : sq (axis.len2 (FOps.ofField K sq ex lg cs sn ac at2 eps)) *
        sq (axis.len2 (FOps.ofField K sq ex lg cs sn ac at2 eps)) =
      axis.len2 (FOps.ofField K sq ex lg cs sn ac at2 eps))
    (hs0 : sq (axis.len2 (FOps.ofField K sq ex lg cs sn ac at2 eps)) ≠ 0)
    (hpy : cs (angle * (1 / 2)) * cs (angle * (1 / 2)) +
        sn (angle * (1 / 2)) * sn (angle * (1 / 2)) = 1) :
    (Quaternion.from_axis_angle (FOps.ofField K sq ex lg cs sn ac at2 eps)
          axis angle).len2
        (FOps.ofField K sq ex lg cs sn ac at2 eps) = 1 := by
  simp only [Vec3.len2, FOps.ofField] at hsq hs0
  simp only [Quaternion.from_axis_angle, Quaternion.len2, Vec3.normalized,
    Vec3.len, Vec3.len2, Vec3.divs, Vec3.muls, FOps.ofField]
  generalize hc : cs (angle * (1 / 2)) = c at hpy ⊢
  generalize hs : sn (angle * (1 / 2)) = s at hpy ⊢
  generalize hL : sq (axis.x * axis.x + axis.y * axis.y + axis.z * axis.z) = L
    at hsq hs0 ⊢
  field_simp
  linear_combination (c * c - 1) * hsq +
    (axis.x * axis.x + axis.y * axis.y + axis.z * axis.z) * hpy

/-- Witness for C5: the x-axis over `ℚ`, with `sqrt` the identity function
(exact on `len2 = 1`) and cos/sin of the half angle evaluating to 1/0. -/
theorem c5_from_axis_angle_unit_witness :
    ((fun x : ℚ => x)
          ((Vec3.mk 1 0 0).len2
            (FOps.ofField ℚ (fun x => x) (fun x => x) (fun x => x)
              (fun _ => 1) (fun _ => 0) (fun x => x) (fun _ _ => 0) 0)) *
        (fun x : ℚ => x)
          ((Vec3.mk 1 0 0).len2
            (FOps.ofField ℚ (fun x => x) (fun x => x) (fun x => x)
              (fun _ => 1) (fun _ => 0) (fun x => x) (fun _ _ => 0) 0)) =
      (Vec3.mk 1 0 0).len2
        (FOps.ofField ℚ (fun x => x) (fun x => x) (fun x => x)
          (fun _ => 1) (fun _ => 0) (fun x => x) (fun _ _ => 0) 0)) ∧
    (Quaternion.from_axis_angle
          (FOps.ofField ℚ (fun x => x) (fun x => x) (fun x => x)
            (fun _ => 1) (fun _ => 0) (fun x => x) (fun _ _ => 0) 0)
          (Vec3.mk 1 0 0) 0).len2
        (FOps.ofField ℚ (fun x => x) (fun x => x) (fun x => x)
          (fun _ => 1) (fun _ => 0) (fun x => x) (fun _ _ => 0) 0) = 1 :=
  ⟨by simp [Vec3.len2, FOps.ofField],
    c5_from_axis_angle_unit ℚ (fun x => x) (fun x => x) (fun x => x)
      (fun _ => 1) (fun _ => 0) (fun x => x) (fun _ _ => 0) 0
      (Vec3.mk 1 0 0) 0 (by simp [Vec3.len2, FOps.ofField])
      (by simp [Vec3.len2, FOps.ofField]) (by simp)⟩

/-- **C9**: over exact scalar arithmetic, every quaternion with
`len2() ≠ 0` satisfies `q * q.invert() == ONE` and
`q.invert() * q == ONE`, where `invert()` is `conjugate() / len2()`. -/
theorem c9_quaternion_invert_law (K : Type) [Field K] [LinearOrder K]
    (sq ex lg cs sn ac : K → K) (at2 : K → K → K) (eps : K)
    (q : Quaternion K)
    (h : q.len2 (FOps.ofField K sq ex lg cs sn ac at2 eps) ≠ 0) :
    q.mul (FOps.ofField K sq ex lg cs sn ac at2 eps)
        (q.invert (FOps.ofField K sq ex lg cs sn ac at2 eps)) =
      Quaternion.one (FOps.ofField K sq ex lg cs sn ac at2 eps) ∧
    (q.invert (FOps.ofField K sq ex lg cs sn ac at2 eps)).mul
        (FOps.ofField K sq ex lg cs sn ac at2 eps) q =
      Quaternion.one (FOps.ofField K sq ex lg cs sn ac at2 eps) := by
  simp only [Quaternion.len2, Vec3.len2, FOps.ofField] at h
  constructor <;>
  · ext <;>
      simp only [Quaternion.mul, Quaternion.invert, Quaternion.conjugate,
        Quaternion.divs, Quaternion.one, Quaternion.len2, Vec3.dot, Vec3.cross,
        Vec3.add, Vec3.muls, Vec3.divs, Vec3.negv, Vec3.len2, Vec3.zero,
        FOps.ofField] <;>
      field_simp <;> ring

/-- Witness for C9: the quaternion `(1, (0,0,0))` over `ℚ`. -/
theorem c9_quaternion_invert_law_witness :
    ((⟨1, 0, 0, 0⟩ : Quaternion ℚ) |>.len2
        (FOps.ofField ℚ (fun x => x) (fun x => x) (fun x => x) (fun x => x)
          (fun x => x) (fun x => x) (fun _ _ => 0) 0)) ≠ 0 ∧
    (⟨1, 0, 0, 0⟩ : Quaternion ℚ).mul
        (FOps.ofField ℚ (fun x => x) (fun x => x) (fun x => x) (fun x => x)
          (fun x => x) (fun x => x) (fun _ _ => 0) 0)
        ((⟨1, 0, 0, 0⟩ : Quaternion ℚ).invert
          (FOps.ofField ℚ (fun x => x) (fun x => x) (fun x => x) (fun x => x)
            (fun x => x) (fun x => x) (fun _ _ => 0) 0)) =
      Quaternion.one
        (FOps.ofField ℚ (fun x => x) (fun x => x) (fun x => x) (fun x => x)
          (fun x => x) (fun x => x) (fun _ _ => 0) 0) :=
  ⟨by simp [Quaternion.len2, Vec3.len2, FOps.ofField],
    (c9_quaternion_invert_law ℚ (fun x => x) (fun x => x) (fun x => x)
        (fun x => x) (fun x => x) (fun x => x) (fun _ _ => 0) 0
        ⟨1, 0, 0, 0⟩
        (by simp [Quaternion.len2, Vec3.len2, FOps.ofField])).1⟩

/-- **C6**: `Complex::powi` (exponentiation by squaring) agrees with the
reference `n`-fold product for every complex number and every exponent,
and `powi 0` is `Complex::one()`. -/
theorem c6_powi_correct (K : Type) [CommRing K] (z : Complex K) (n : ℕ) :
    z.powi n = z.powRef n ∧ z.powi 0 = Complex.one := by
  constructor
  · rw [Complex.powi, Complex.powiAux_eq, Complex.one_mul']
  · rw [Complex.powi, Complex.powiAux_eq, Complex.one_mul']
    rfl

/-- **C7**: a zero base returns the exponent unchanged:
`Complex::zero().powf(p) == Complex::new(p, 0)` and
`Complex::zero().powc(w) == w`, for every scalar exponent `p`, complex
exponent `w`, and transcendental dictionary. -/
theorem c7_zero_base_pow (K : Type) [Field K] [DecidableEq K]
    (F : CFloatOps K) (p : K) (w : Complex K) :
    Complex.powf F Complex.zero p = ⟨p, 0⟩ ∧
      Complex.powc F Complex.zero w = w := by
  constructor <;> simp [Complex.powf, Complex.powc]

lemma hexDigitByte_bounds {b : ℕ} (h : isHexDigitByte b = true) :
    48 ≤ b ∧ b ≤ 102 := by
  simp only [isHexDigitByte, Bool.or_eq_true, Bool.and_eq_true,
    decide_eq_true_eq] at h
  omega

/-- For a hex-digit byte, `to_digit` succeeds with a value below 16 and
formatting that value as an uppercase hex digit is exactly ASCII
uppercasing of the byte (established by checking every byte value below
103). -/
lemma hexDigitVal_spec_aux :
    ∀ b : ℕ, b < 103 → isHexDigitByte b = true →
      hexDigitVal b = some ((hexDigitVal b).getD 0) ∧
        (hexDigitVal b).getD 0 < 16 ∧
        hexUpperDigit ((hexDigitVal b).getD 0) = asciiToUpper b := by
  decide

lemma hexDigitVal_spec {b : ℕ} (h : isHexDigitByte b = true) :
    hexDigitVal b = some ((hexDigitVal b).getD 0) ∧
      (hexDigitVal b).getD 0 < 16 ∧
      hexUpperDigit ((hexDigitVal b).getD 0) = asciiToUpper b :=
  hexDigitVal_spec_aux b (by have := hexDigitByte_bounds h; omega) h

/-- Parsing two hex-digit bytes yields `d1 * 16 + d2`. -/
lemma from_str_radix16_u8_pair {b1 b2 d1 d2 : ℕ}
    (h1 : hexDigitVal b1 = some d1) (h2 : hexDigitVal b2 = some d2)
    (hd1 : d1 < 16) (hd2 : d2 < 16) (hb1 : 48 ≤ b1) :
    from_str_radix16_u8 [b1, b2] = some (d1 * 16 + d2) := by
  rw [from_str_radix16_u8, if_neg (by omega : ¬b1 = 43),
    if_neg (by omega : ¬b1 = 45), parseHexU8Digits]
  simp only [List.foldl, h1, h2]
  rw [if_pos (by omega : 0 * 16 + d1 ≤ 255)]
  dsimp only
  rw [if_pos (by omega : (0 * 16 + d1) * 16 + d2 ≤ 255)]
  congr 1
  omega

/-- Formatting `d1 * 16 + d2` with `{:02X}` yields the two digits back. -/
lemma byteToHexX2_pair {d1 d2 : ℕ} (h1 : d1 < 16) (h2 : d2 < 16) :
    byteToHexX2 (d1 * 16 + d2) = [hexUpperDigit d1, hexUpperDigit d2] := by
  rw [byteToHexX2]
  have hdiv : (d1 * 16 + d2) / 16 = d1 := by omega
  have hmod : (d1 * 16 + d2) % 16 = d2 := by omega
  rw [hdiv, hmod]

/-- **C8**: for every 7-byte string `#` followed by six hex-digit bytes
(either case), `rgb_to_hex(hex_to_rgb(h))` is exactly the ASCII-uppercase
form of `h`: a 7-byte `#RRGGBB` string with uppercase hex digits and no
alpha channel. -/
theorem c8_hex_round_trip (b1 b2 b3 b4 b5 b6 : ℕ)
    (h1 : isHexDigitByte b1 = true) (h2 : isHexDigitByte b2 = true)
    (h3 : isHexDigitByte b3 = true) (h4 : isHexDigitByte b4 = true)
    (h5 : isHexDigitByte b5 = true) (h6 : isHexDigitByte b6 = true) :
    rgb_to_hex (hex_to_rgb [35, b1, b2, b3, b4, b5, b6]) =
      [35, asciiToUpper b1, asciiToUpper b2, asciiToUpper b3,
        asciiToUpper b4, asciiToUpper b5, asciiToUpper b6] := by
  obtain ⟨hv1, hd1, hu1⟩ := hexDigitVal_spec h1
  obtain ⟨hv2, hd2, hu2⟩ := hexDigitVal_spec h2
  obtain ⟨hv3, hd3, hu3⟩ := hexDigitVal_spec h3
  obtain ⟨hv4, hd4, hu4⟩ := hexDigitVal_spec h4
  obtain ⟨hv5, hd5, hu5⟩ := hexDigitVal_spec h5
  obtain ⟨hv6, hd6, hu6⟩ := hexDigitVal_spec h6
  have e1 : ((([35, b1, b2, b3, b4, b5, b6] : List ℕ).drop 1).take 2) =
      [b1, b2] := rfl
  have e2 : ((([35, b1, b2, b3, b4, b5, b6] : List ℕ).drop 3).take 2) =
      [b3, b4] := rfl
  have e3 : (([35, b1, b2, b3, b4, b5, b6] : List ℕ).drop 5) = [b5, b6] := rfl
  rw [hex_to_rgb, e1, e2, e3,
    from_str_radix16_u8_pair hv1 hv2 hd1 hd2 (hexDigitByte_bounds h1).1,
    from_str_radix16_u8_pair hv3 hv4 hd3 hd4 (hexDigitByte_bounds h3).1,
    from_str_radix16_u8_pair hv5 hv6 hd5 hd6 (hexDigitByte_bounds h5).1]
  rw [rgb_to_hex]
  simp only [Option.getD_some]
  rw [byteToHexX2_pair hd1 hd2, byteToHexX2_pair hd3 hd4,
    byteToHexX2_pair hd5 hd6, hu1, hu2, hu3, hu4, hu5, hu6]
  rfl

/-- Witness for C8: the mixed-case string `#fA09bC` round-trips to
`#FA09BC`. -/
theorem c8_hex_round_trip_witness :
    isHexDigitByte 102 = true ∧ isHexDigitByte 65 = true ∧
      isHexDigitByte 48 = true ∧ isHexDigitByte 57 = true ∧
      isHexDigitByte 98 = true ∧ isHexDigitByte 67 = true ∧
      rgb_to_hex (hex_to_rgb [35, 102, 65, 48, 57, 98, 67]) =
        [35, asciiToUpper 102, asciiToUpper 65, asciiToUpper 48,
          asciiToUpper 57, asciiToUpper 98, asciiToUpper 67] :=
  ⟨by decide, by decide, by decide, by decide, by decide, by decide,
    c8_hex_round_trip 102 65 48 57 98 67 (by decide) (by decide) (by decide)
      (by decide) (by decide) (by decide)⟩

lemma clampQ01 (x : ℚ) : 0 ≤ clampQ x 0 1 ∧ clampQ x 0 1 ≤ 1 := by
  unfold clampQ
  split_ifs <;> constructor <;> linarith

lemma hsvBranch_isSome (i : ℕ) (h : i < 6) (v t p q : ℚ) :
    (hsvBranch i v t p q).isSome = true := by
  interval_cases i <;> rfl

lemma map_isSome {A B : Type} (f : A → B) (o : Option A) :
    (o.map f).isSome = o.isSome := by
  cases o <;> rfl

/-- **C10**: `hsv_to_rgb` is total: the sector index `(i as u8) % 6` is
always in `0..=5`, so the `unreachable!()` arm is never executed
(`hsv_to_rgb_float` always returns a value), every returned channel is
clamped to `[0,1]`, and the `u8` channels of `hsv_to_rgb` are exactly
those values scaled by 255, rounded and cast. -/
theorem c10_hsv_to_rgb_total (hsv : Hsv) :
    castU8 ((⌊hsv.h / 60⌋ : ℤ) : ℚ) % 6 < 6 ∧
      (hsv_to_rgb_float hsv).isSome = true ∧
      ∀ r g b : ℚ, hsv_to_rgb_float hsv = some (r, g, b) →
        (0 ≤ r ∧ r ≤ 1) ∧ (0 ≤ g ∧ g ≤ 1) ∧ (0 ≤ b ∧ b ≤ 1) ∧
          hsv_to_rgb hsv = some
            ⟨castU8 (rustRound (r * 255)), castU8 (rustRound (g * 255)),
              castU8 (rustRound (b * 255))⟩ := by
  refine ⟨Nat.mod_lt _ (by norm_num), ?_, ?_⟩
  · simp only [hsv_to_rgb_float, map_isSome]
    exact hsvBranch_isSome _ (Nat.mod_lt _ (by norm_num)) _ _ _ _
  · intro r g b hr
    have hmap := hr
    rw [hsv_to_rgb_float] at hmap
    obtain ⟨pre, hpre, hclamp⟩ := Option.map_eq_some'.mp hmap
    obtain ⟨p1, p2, p3⟩ := pre
    injection hclamp with hc1 hrest
    injection hrest with hc2 hc3
    subst hc1
    subst hc2
    subst hc3
    refine ⟨clampQ01 _, clampQ01 _, clampQ01 _, ?_⟩
    rw [hsv_to_rgb, hr]
    rfl

/-- Witness for C10: the black HSV value `(0, 0, 0)` maps to channels
`(0, 0, 0)` and RGB `(0, 0, 0)`. -/
theorem c10_hsv_to_rgb_total_witness :
    hsv_to_rgb_float ⟨0, 0, 0⟩ = some (0, 0, 0) ∧
      hsv_to_rgb ⟨0, 0, 0⟩ = some
        ⟨castU8 (rustRound (0 * 255)), castU8 (rustRound (0 * 255)),
          castU8 (rustRound (0 * 255))⟩ :=
  ⟨by norm_num [hsv_to_rgb_float, hsvBranch, clampQ, castU8],
    ((c10_hsv_to_rgb_total ⟨0, 0, 0⟩).2.2 0 0 0
        (by norm_num [hsv_to_rgb_float, hsvBranch, clampQ, castU8])).2.2.2⟩

end Soh
